import Mathlib

/-!
Shallow embedding of `src/main.rs` of the interface2avro repository.

The program walks a parsed TypeScript syntax tree (tree-sitter), extracts
one JSON schema entry per `interface_declaration` (`get_schema`), parses
each field via `get_prop_type`, and merges references into the root entry
(`merger`).  The syntax provider (tree-sitter) is external; we embed at the
tree level: a node has a kind tag, its extracted source text, and children.
JSON values (serde_json `Value`) are modelled by an inductive `Value`; the
fragment used by the program needs only null, strings, arrays and objects.
Rust panics (out-of-bounds indexing, `unwrap` on `None`) are modelled by
`Except Unit` / `Option` errors.
-/

/-- A tree-sitter syntax node: kind tag, extracted source text
(`utf8_text`), and direct children. -/
structure TSNode where
  kind : String
  text : String
  children : List TSNode
deriving Repr

/-- The fragment of serde_json `Value` this program constructs. -/
inductive Value where
  | null : Value
  | str : String → Value
  | arr : List Value → Value
  | obj : List (String × Value) → Value
deriving Repr

mutual

/-- Structural equality on `Value`: serde_json's `PartialEq` for `Value`. -/
def Value.beq : Value → Value → Bool
  | .null, .null => true
  | .str a, .str b => a == b
  | .arr xs, .arr ys => Value.beqList xs ys
  | .obj xs, .obj ys => Value.beqObj xs ys
  | _, _ => false

/-- Element-wise equality of JSON arrays. -/
def Value.beqList : List Value → List Value → Bool
  | [], [] => true
  | x :: xs, y :: ys => Value.beq x y && Value.beqList xs ys
  | _, _ => false

/-- Entry-wise equality of JSON objects. -/
def Value.beqObj : List (String × Value) → List (String × Value) → Bool
  | [], [] => true
  | (k, v) :: xs, (k', v') :: ys => k == k' && Value.beq v v' && Value.beqObj xs ys
  | _, _ => false

end

mutual

theorem Value.beq_iff_eq : (a b : Value) → (Value.beq a b = true ↔ a = b)
  | .null, .null => by simp [Value.beq]
  | .null, .str _ => by simp [Value.beq]
  | .null, .arr _ => by simp [Value.beq]
  | .null, .obj _ => by simp [Value.beq]
  | .str _, .null => by simp [Value.beq]
  | .str _, .str _ => by simp [Value.beq]
  | .str _, .arr _ => by simp [Value.beq]
  | .str _, .obj _ => by simp [Value.beq]
  | .arr _, .null => by simp [Value.beq]
  | .arr _, .str _ => by simp [Value.beq]
  | .arr xs, .arr ys => by
      simp only [Value.beq]
      rw [Value.beqList_iff_eq xs ys]
      simp
  | .arr _, .obj _ => by simp [Value.beq]
  | .obj _, .null => by simp [Value.beq]
  | .obj _, .str _ => by simp [Value.beq]
  | .obj _, .arr _ => by simp [Value.beq]
  | .obj xs, .obj ys => by
      simp only [Value.beq]
      rw [Value.beqObj_iff_eq xs ys]
      simp

theorem Value.beqList_iff_eq : (xs ys : List Value) → (Value.beqList xs ys = true ↔ xs = ys)
  | [], [] => by simp [Value.beqList]
  | [], _ :: _ => by simp [Value.beqList]
  | _ :: _, [] => by simp [Value.beqList]
  | x :: xs, y :: ys => by
      simp only [Value.beqList, Bool.and_eq_true]
      rw [Value.beq_iff_eq x y, Value.beqList_iff_eq xs ys]
      simp

theorem Value.beqObj_iff_eq :
    (xs ys : List (String × Value)) → (Value.beqObj xs ys = true ↔ xs = ys)
  | [], [] => by simp [Value.beqObj]
  | [], _ :: _ => by simp [Value.beqObj]
  | _ :: _, [] => by simp [Value.beqObj]
  | (k, v) :: xs, (k', v') :: ys => by
      simp only [Value.beqObj, Bool.and_eq_true]
      rw [Value.beq_iff_eq v v', Value.beqObj_iff_eq xs ys]
      simp [and_assoc]

end

instance : DecidableEq Value := fun a b =>
  decidable_of_iff _ (Value.beq_iff_eq a b)

def exceptDecEq {ε α : Type} [DecidableEq ε] [DecidableEq α] :
    DecidableEq (Except ε α) := fun a b =>
  match a, b with
  | .error x, .error y =>
    if h : x = y then .isTrue (by rw [h])
    else .isFalse (by intro hc; injection hc; exact h ‹_›)
  | .ok x, .ok y =>
    if h : x = y then .isTrue (by rw [h])
    else .isFalse (by intro hc; injection hc; exact h ‹_›)
  | .error _, .ok _ => .isFalse (by intro hc; exact Except.noConfusion hc)
  | .ok _, .error _ => .isFalse (by intro hc; exact Except.noConfusion hc)

instance {ε α : Type} [DecidableEq ε] [DecidableEq α] :
    DecidableEq (Except ε α) := exceptDecEq

/-- Association-list lookup: serde_json indexing `v[key]` on an object,
returning `Null` for a missing key. -/
def getKeyList : List (String × Value) → String → Value
  | [], _ => .null
  | (k', v) :: rest, k => if k' = k then v else getKeyList rest k

/-- serde_json indexing `v[key]`: `Null` when `v` is not an object or the
key is absent. -/
def Value.getKey : Value → String → Value
  | .obj fs, k => getKeyList fs k
  | _, _ => .null

/-- Replace the value at the (unique) binding of `k`; models in-place
mutation through `v[key].as_array_mut()`. -/
def setKeyList : List (String × Value) → String → Value → List (String × Value)
  | [], _, _ => []
  | (k', v') :: rest, k, v =>
    if k' = k then (k', v) :: rest else (k', v') :: setKeyList rest k v

/-- Mutation of the value stored under key `k` of an object. -/
def Value.setKey : Value → String → Value → Value
  | .obj fs, k, v => .obj (setKeyList fs k v)
  | x, _, _ => x

/-- Rust `str::contains(char)`. -/
def containsChar (sep : Char) (cs : List Char) : Bool := cs.any (fun c => c = sep)

/-- Rust `str::split(char)`: splitting `""` gives `[""]`, adjacent
separators give empty segments, order is preserved. -/
def splitChar (sep : Char) : List Char → List (List Char)
  | [] => [[]]
  | c :: rest =>
    if c = sep then [] :: splitChar sep rest
    else
      match splitChar sep rest with
      | [] => [[c]]
      | seg :: segs => (c :: seg) :: segs

/-- Rust `str::trim()`: strip whitespace from both ends. -/
def trimChars (cs : List Char) : List Char :=
  ((cs.dropWhile Char.isWhitespace).reverse.dropWhile Char.isWhitespace).reverse

/-- Classification of a type-expression text (`get_prop_type`,
lines 121–129): a text containing `|` splits on `|` with each segment
trimmed (a union, order and duplicates kept); any other text is stored
verbatim as a primitive string. -/
def classifyType (typed : String) : Value :=
  if containsChar '|' typed.data then
    .arr ((splitChar '|' typed.data).map (fun c => Value.str ⟨trimChars c⟩))
  else
    .str typed

/-- Inner `for_each` of `get_prop_type` over the children of a
separator-marked child (lines 117–131): every child whose text is not the
literal `":"` overwrites `pptype`. -/
def typeLoop : List TSNode → Option Value → Option Value
  | [], t => t
  | sub :: rest, t =>
    if sub.text = ":" then typeLoop rest t
    else typeLoop rest (some (classifyType sub.text))

/-- Outer `for_each` of `get_prop_type` (lines 114–135), carrying the two
mutables `pptype` and `ppvalue`.  Each direct child is classified by its
first extracted character, read as `chars().collect::<Vec<char>>()[0]`:
on empty text that indexing is a Rust panic, modelled as `Except.error`.
A child starting with `:` runs the inner loop on its children; any other
child overwrites `ppvalue` with its text. -/
def propLoop :
    List TSNode → Option Value → Option String →
      Except Unit (Option Value × Option String)
  | [], t, v => .ok (t, v)
  | ch :: rest, t, v =>
    match ch.text.data.head? with
    | none => .error ()
    | some c =>
      if c = ':' then propLoop rest (typeLoop ch.children t) v
      else propLoop rest t (some ch.text)

/-- `get_prop_type` (lines 109–144): a field entry
`{"name": ppvalue, "type": pptype}` when both were found, `none`
otherwise. -/
def get_prop_type (c_node : TSNode) : Except Unit (Option Value) := do
  let (pptype, ppvalue) ← propLoop c_node.children none none
  match ppvalue, pptype with
  | some v, some t => pure (some (.obj [("name", .str v), ("type", t)]))
  | _, _ => pure none

/-- Loop of `get_schema` over an `object_type`'s children (lines 88–94):
push each `some` result of `get_prop_type`, in child order. -/
def fieldsLoop : List TSNode → List Value → Except Unit (List Value)
  | [], acc => .ok acc
  | n :: rest, acc => do
    match ← get_prop_type n with
    | some p => fieldsLoop rest (acc ++ [p])
    | none => fieldsLoop rest acc

/-- Loop of `get_schema` over an `interface_declaration`'s children
(lines 79–98): a `type_identifier` child sets the entry name
(`map.insert`, overwriting any previous one), an `object_type` child
appends its parsed fields, any other child is ignored. -/
def ifaceLoop :
    List TSNode → Option String → List Value →
      Except Unit (Option String × List Value)
  | [], nm, fs => .ok (nm, fs)
  | n :: rest, nm, fs =>
    if n.kind = "type_identifier" then ifaceLoop rest (some n.text) fs
    else if n.kind = "object_type" then do
      let fs' ← fieldsLoop n.children fs
      ifaceLoop rest nm fs'
    else ifaceLoop rest nm fs

/-- The map built for one `interface_declaration` (lines 74–101): always
the kind tag `"type": "Record"` and a `"fields"` array; a `"name"` entry
only when a `type_identifier` child was seen.  (serde_json's `Map` is a
`BTreeMap`; key order is irrelevant here because all access is by key.) -/
def mkEntry (nm : Option String) (fs : List Value) : Value :=
  match nm with
  | some n => .obj [("type", .str "Record"), ("name", .str n), ("fields", .arr fs)]
  | none => .obj [("type", .str "Record"), ("fields", .arr fs)]

/-- One schema entry for an `interface_declaration` node. -/
def interfaceEntry (node : TSNode) : Except Unit Value := do
  let (nm, fs) ← ifaceLoop node.children none []
  pure (mkEntry nm fs)

/-- Top-level loop of `get_schema` (lines 72–104): one entry per
`interface_declaration` child of the tree root, in order; other top-level
nodes are ignored. -/
def topLoop : List TSNode → List Value → Except Unit (List Value)
  | [], acc => .ok acc
  | n :: rest, acc =>
    if n.kind = "interface_declaration" then do
      let e ← interfaceEntry n
      topLoop rest (acc ++ [e])
    else topLoop rest acc

/-- `get_schema` (lines 62–107): the schema entries extracted from the
direct children of the parse tree's root. -/
def get_schema (root : TSNode) : Except Unit (List Value) :=
  topLoop root.children []

/-- The closed list of recognized base primitives (line 42). -/
def base_types : List String := ["string", "number", "null", "Date", "boolean"]

/-- Body of the merger's per-field loop (lines 45–56): when the field's
`"type"` equals none of the base primitive strings, the first schema entry
whose `"name"` equals that `"type"` replaces the field wholesale; in every
other case the field is kept.  `**x == entry["type"]` is serde's
`&str == Value` (true only on an equal JSON string), and
`x["name"] == entry["type"]` is `Value == Value`; both are `Value.beq`. -/
def mergeField (schemas : List Value) (entry : Value) : Value :=
  if (base_types.find? (fun x => Value.beq (Value.str x) (entry.getKey "type"))).isNone then
    match schemas.find? (fun x => Value.beq (x.getKey "name") (entry.getKey "type")) with
    | some sub => sub
    | none => entry
  else entry

/-- `merger` (lines 39–60).  `schemas[0]` on an empty vector and
`.as_array().unwrap()` on a missing or non-array `"fields"` are Rust
panics, modelled as `none`.  The loop iterates over the unmutated
`schemas[0]["fields"]` and writes each index of the clone at most once,
so the in-place rewrites amount to a `map` over the field list. -/
def merger (schemas : List Value) : Option Value :=
  match schemas with
  | [] => none
  | root :: rest =>
    match root.getKey "fields" with
    | .arr fields =>
      some (root.setKey "fields" (.arr (fields.map (mergeField (root :: rest)))))
    | _ => none

/-- Specification helper: the text of the last child whose text does not
begin with `:` (the last candidate property name seen by the outer loop of
`get_prop_type`); `none` when every child is separator-marked. -/
def lastNonSepText : List TSNode → Option String
  | [] => none
  | ch :: rest =>
    if ch.text.data.head? = some ':' then lastNonSepText rest
    else
      match lastNonSepText rest with
      | some s => some s
      | none => some ch.text

/-!
Helper lemmas about key access and mutation, the merger, and the
extraction loops.
-/

theorem getKeyList_setKeyList_same (fs : List (String × Value)) (k : String)
    (v : Value) (h : getKeyList fs k ≠ .null) :
    getKeyList (setKeyList fs k v) k = v := by
  induction fs with
  | nil => simp [getKeyList] at h
  | cons p rest ih =>
    obtain ⟨k', v'⟩ := p
    by_cases hk : k' = k
    · subst hk; simp [getKeyList, setKeyList]
    · simp only [getKeyList, setKeyList, if_neg hk] at h ⊢
      exact ih h

theorem Value.getKey_setKey_same (w : Value) (k : String) (v : Value)
    (h : w.getKey k ≠ .null) : (w.setKey k v).getKey k = v := by
  cases w with
  | obj fs =>
    simp only [Value.getKey, Value.setKey] at h ⊢
    exact getKeyList_setKeyList_same fs k v h
  | null => simp [Value.getKey] at h
  | str s => simp [Value.getKey] at h
  | arr xs => simp [Value.getKey] at h

theorem getKeyList_setKeyList_ne (fs : List (String × Value)) (k k' : String)
    (v : Value) (h : k ≠ k') :
    getKeyList (setKeyList fs k v) k' = getKeyList fs k' := by
  induction fs with
  | nil => simp [getKeyList, setKeyList]
  | cons p rest ih =>
    obtain ⟨k0, v0⟩ := p
    by_cases hk : k0 = k
    · subst hk
      have hk' : ¬ k0 = k' := h
      simp [getKeyList, setKeyList, hk']
    · simp only [setKeyList, if_neg hk, getKeyList]
      by_cases hk' : k0 = k'
      · simp [hk']
      · simp [hk', ih]

theorem Value.getKey_setKey_ne (w : Value) (k k' : String) (v : Value)
    (h : k ≠ k') : (w.setKey k v).getKey k' = w.getKey k' := by
  cases w with
  | obj fs =>
    simp only [Value.getKey, Value.setKey]
    exact getKeyList_setKeyList_ne fs k k' v h
  | null => rfl
  | str s => rfl
  | arr xs => rfl

theorem mkEntry_getKey_type (nm : Option String) (fs : List Value) :
    (mkEntry nm fs).getKey "type" = .str "Record" := by
  cases nm <;> rfl

theorem mkEntry_getKey_fields (nm : Option String) (fs : List Value) :
    (mkEntry nm fs).getKey "fields" = .arr fs := by
  cases nm <;> rfl

theorem mkEntry_getKey_name (nm : Option String) (fs : List Value) :
    (mkEntry nm fs).getKey "name" =
      (match nm with | some n => .str n | none => .null) := by
  cases nm <;> rfl

theorem mergeField_of_base (schemas : List Value) (entry : Value) (p : String)
    (ht : entry.getKey "type" = .str p) (hp : p ∈ base_types) :
    mergeField schemas entry = entry := by
  have hs : (base_types.find?
      (fun x => Value.beq (Value.str x) (entry.getKey "type"))).isSome := by
    rw [List.find?_isSome]
    exact ⟨p, hp, by rw [ht]; exact (Value.beq_iff_eq _ _).mpr rfl⟩
  obtain ⟨a, ha⟩ := Option.isSome_iff_exists.mp hs
  simp [mergeField, ha]

theorem mergeField_of_arrtype (schemas : List Value) (entry : Value)
    (xs : List Value) (ht : entry.getKey "type" = .arr xs)
    (hn : ∀ x ∈ schemas,
      x.getKey "name" = .null ∨ ∃ s, x.getKey "name" = .str s) :
    mergeField schemas entry = entry := by
  have hbase : base_types.find?
      (fun x => Value.beq (Value.str x) (entry.getKey "type")) = none := by
    rw [List.find?_eq_none]
    intro x _
    rw [ht]
    simp [Value.beq]
  have hfind : schemas.find?
      (fun x => Value.beq (x.getKey "name") (entry.getKey "type")) = none := by
    rw [List.find?_eq_none]
    intro x hx
    rcases hn x hx with h | ⟨s, h⟩ <;> rw [ht, h] <;> simp [Value.beq]
  simp [mergeField, hbase, hfind]

theorem mergeField_of_found (schemas : List Value) (entry : Value) (t sub : Value)
    (ht : entry.getKey "type" = t)
    (hb : ∀ p ∈ base_types, t ≠ .str p)
    (hf : schemas.find? (fun x => Value.beq (x.getKey "name") t) = some sub) :
    mergeField schemas entry = sub := by
  have hbase : base_types.find?
      (fun x => Value.beq (Value.str x) t) = none := by
    rw [List.find?_eq_none]
    intro x hx
    intro hc
    exact hb x hx ((Value.beq_iff_eq _ _).mp hc).symm
  unfold mergeField
  rw [ht, hbase, hf]
  simp

theorem mergeField_of_notfound (schemas : List Value) (entry : Value) (t : String)
    (ht : entry.getKey "type" = .str t)
    (hb : t ∉ base_types)
    (hn : ∀ x ∈ schemas, x.getKey "name" ≠ .str t) :
    mergeField schemas entry = entry := by
  have hbase : base_types.find?
      (fun x => Value.beq (Value.str x) (entry.getKey "type")) = none := by
    rw [List.find?_eq_none]
    intro x hx
    rw [ht]
    intro hc
    have hxt : Value.str x = Value.str t := (Value.beq_iff_eq _ _).mp hc
    injection hxt with e
    exact hb (e ▸ hx)
  have hfind : schemas.find?
      (fun x => Value.beq (x.getKey "name") (entry.getKey "type")) = none := by
    rw [List.find?_eq_none]
    intro x hx
    rw [ht]
    intro hc
    exact hn x hx ((Value.beq_iff_eq _ _).mp hc)
  simp [mergeField, hbase, hfind]

theorem merger_eq_some (root0 : Value) (rest fs : List Value)
    (h : root0.getKey "fields" = .arr fs) :
    merger (root0 :: rest) =
      some (root0.setKey "fields"
        (.arr (fs.map (mergeField (root0 :: rest))))) := by
  have e : merger (root0 :: rest) =
      match root0.getKey "fields" with
      | .arr fields =>
        some (root0.setKey "fields"
          (.arr (fields.map (mergeField (root0 :: rest)))))
      | _ => none := rfl
  rw [e, h]

theorem merger_some_elim (l : List Value) (m : Value) (h : merger l = some m) :
    ∃ root0 rest fs, l = root0 :: rest ∧ root0.getKey "fields" = .arr fs ∧
      m = root0.setKey "fields" (.arr (fs.map (mergeField l))) := by
  match l with
  | [] => simp [merger] at h
  | root0 :: rest =>
    refine ⟨root0, rest, ?_⟩
    cases hf : root0.getKey "fields" with
    | arr fs =>
      rw [merger_eq_some root0 rest fs hf] at h
      exact ⟨fs, rfl, rfl, (Option.some_injective _ h).symm⟩
    | null => simp [merger, hf] at h
    | str s => simp [merger, hf] at h
    | obj o => simp [merger, hf] at h

theorem merger_root_shape (l : List Value) (m root0 : Value) (fs : List Value)
    (hm : merger l = some m) (hh : l.head? = some root0)
    (hf : root0.getKey "fields" = .arr fs) :
    m.getKey "fields" = .arr (fs.map (mergeField l)) ∧
      m.getKey "name" = root0.getKey "name" := by
  obtain ⟨r, rest, fs', hl, hf', hm'⟩ := merger_some_elim l m hm
  subst hl
  simp only [List.head?_cons, Option.some.injEq] at hh
  subst hh
  rw [hf] at hf'
  injection hf' with e
  subst e
  subst hm'
  constructor
  · exact Value.getKey_setKey_same _ _ _
      (by rw [hf]; intro hc; exact Value.noConfusion hc)
  · exact Value.getKey_setKey_ne _ _ _ _ (by decide)

theorem interfaceEntry_shape (n : TSNode) (e : Value)
    (h : interfaceEntry n = .ok e) : ∃ nm fs, e = mkEntry nm fs := by
  unfold interfaceEntry at h
  cases hi : ifaceLoop n.children none [] with
  | error u => rw [hi] at h; simp at h
  | ok p =>
    obtain ⟨nm, fs⟩ := p
    rw [hi] at h
    simp at h
    exact ⟨nm, fs, h.symm⟩

theorem topLoop_ok_mem (ns : List TSNode) (acc l : List Value)
    (h : topLoop ns acc = .ok l) :
    ∀ v ∈ l, v ∈ acc ∨ ∃ nm fs, v = mkEntry nm fs := by
  induction ns generalizing acc with
  | nil =>
    simp only [topLoop, Except.ok.injEq] at h
    subst h
    intro v hv
    exact .inl hv
  | cons n rest ih =>
    by_cases hk : n.kind = "interface_declaration"
    · simp only [topLoop, if_pos hk] at h
      cases hi : interfaceEntry n with
      | error u =>
        rw [hi] at h
        exact Except.noConfusion h
      | ok e =>
        rw [hi] at h
        replace h : topLoop rest (acc ++ [e]) = .ok l := h
        intro v hv
        rcases ih (acc ++ [e]) h v hv with hmem | hsh
        · rcases List.mem_append.mp hmem with h1 | h2
          · exact .inl h1
          · right
            have hve : v = e := by simpa using h2
            exact interfaceEntry_shape n v (by rw [hi, hve])
        · exact .inr hsh
    · simp only [topLoop, if_neg hk] at h
      exact ih acc h

theorem get_schema_shape (root : TSNode) (l : List Value)
    (h : get_schema root = .ok l) : ∀ v ∈ l, ∃ nm fs, v = mkEntry nm fs := by
  intro v hv
  rcases topLoop_ok_mem root.children [] l h v hv with hmem | hsh
  · simp at hmem
  · exact hsh

theorem get_schema_name_shape (root : TSNode) (l : List Value)
    (h : get_schema root = .ok l) :
    ∀ v ∈ l, v.getKey "name" = .null ∨ ∃ s, v.getKey "name" = .str s := by
  intro v hv
  obtain ⟨nm, fs, rfl⟩ := get_schema_shape root l h v hv
  cases nm with
  | none => left; rfl
  | some s => right; exact ⟨s, rfl⟩

theorem topLoop_of_no_iface (ns : List TSNode) (acc : List Value)
    (h : ∀ n ∈ ns, n.kind ≠ "interface_declaration") :
    topLoop ns acc = .ok acc := by
  induction ns with
  | nil => rfl
  | cons n rest ih =>
    have hn := h n (by simp)
    simp only [topLoop, if_neg hn]
    exact ih (fun x hx => h x (by simp [hx]))

theorem text_data_ne_nil (s : String) (h : s ≠ "") : s.data ≠ [] := by
  intro hd
  apply h
  cases s with
  | mk data =>
    simp only at hd
    subst hd
    rfl

theorem propLoop_cons_of_empty (ch : TSNode) (rest : List TSNode)
    (t : Option Value) (v : Option String) (hh : ch.text.data.head? = none) :
    propLoop (ch :: rest) t v = .error () := by
  simp [propLoop, hh]

theorem propLoop_cons_of_sep (ch : TSNode) (rest : List TSNode)
    (t : Option Value) (v : Option String)
    (hh : ch.text.data.head? = some ':') :
    propLoop (ch :: rest) t v = propLoop rest (typeLoop ch.children t) v := by
  simp [propLoop, hh]

theorem propLoop_cons_of_nonsep (ch : TSNode) (rest : List TSNode)
    (t : Option Value) (v : Option String) (c : Char)
    (hh : ch.text.data.head? = some c) (hc : c ≠ ':') :
    propLoop (ch :: rest) t v = propLoop rest t (some ch.text) := by
  simp [propLoop, hh, hc]

theorem typeLoop_isSome (subs : List TSNode) (t : Option Value) :
    (typeLoop subs t).isSome = true ↔
      t.isSome = true ∨ ∃ sub ∈ subs, sub.text ≠ ":" := by
  induction subs generalizing t with
  | nil => simp [typeLoop]
  | cons sub rest ih =>
    by_cases hs : sub.text = ":"
    · simp only [typeLoop, if_pos hs]
      rw [ih]
      constructor
      · rintro (h | ⟨x, hx, hne⟩)
        · exact .inl h
        · exact .inr ⟨x, List.mem_cons_of_mem _ hx, hne⟩
      · rintro (h | ⟨x, hx, hne⟩)
        · exact .inl h
        · rcases List.mem_cons.mp hx with rfl | hx'
          · exact absurd hs hne
          · exact .inr ⟨x, hx', hne⟩
    · simp only [typeLoop, if_neg hs]
      constructor
      · intro _
        exact .inr ⟨sub, by simp, hs⟩
      · intro _
        rw [ih]
        exact .inl rfl

theorem lastNonSepText_isSome (cs : List TSNode) :
    (lastNonSepText cs).isSome = true ↔
      ∃ ch ∈ cs, ch.text.data.head? ≠ some ':' := by
  induction cs with
  | nil => simp [lastNonSepText]
  | cons ch rest ih =>
    by_cases hh : ch.text.data.head? = some ':'
    · simp only [lastNonSepText, if_pos hh]
      rw [ih]
      constructor
      · rintro ⟨x, hx, hne⟩
        exact ⟨x, List.mem_cons_of_mem _ hx, hne⟩
      · rintro ⟨x, hx, hne⟩
        rcases List.mem_cons.mp hx with rfl | hx'
        · exact absurd hh hne
        · exact ⟨x, hx', hne⟩
    · simp only [lastNonSepText, if_neg hh]
      constructor
      · intro _
        exact ⟨ch, by simp, hh⟩
      · intro _
        cases hl : lastNonSepText rest <;> simp

theorem propLoop_spec (cs : List TSNode) (t : Option Value) (v : Option String)
    (h : ∀ ch ∈ cs, ch.text ≠ "") :
    ∃ t' v', propLoop cs t v = .ok (t', v') ∧
      v' = (match lastNonSepText cs with | some s => some s | none => v) ∧
      (t'.isSome = true ↔ t.isSome = true ∨
        ∃ ch ∈ cs, ch.text.data.head? = some ':' ∧
          ∃ sub ∈ ch.children, sub.text ≠ ":") := by
  induction cs generalizing t v with
  | nil =>
    refine ⟨t, v, rfl, rfl, ?_⟩
    simp
  | cons ch rest ih =>
    have hne := h ch (by simp)
    have hrest : ∀ x ∈ rest, x.text ≠ "" := fun x hx => h x (by simp [hx])
    cases hh : ch.text.data.head? with
    | none =>
      exact absurd (List.head?_eq_none_iff.mp hh) (text_data_ne_nil ch.text hne)
    | some c =>
      by_cases hc : c = ':'
      · subst hc
        obtain ⟨t', v', hpl, hv', ht'⟩ := ih (typeLoop ch.children t) v hrest
        refine ⟨t', v', ?_, ?_, ?_⟩
        · rw [propLoop_cons_of_sep ch rest t v hh]
          exact hpl
        · rw [hv']
          simp only [lastNonSepText, if_pos hh]
        · rw [ht', typeLoop_isSome]
          constructor
          · rintro ((hsome | ⟨sub, hsub, hsne⟩) | ⟨x, hx, hxc⟩)
            · exact .inl hsome
            · exact .inr ⟨ch, by simp, hh, sub, hsub, hsne⟩
            · exact .inr ⟨x, List.mem_cons_of_mem _ hx, hxc⟩
          · rintro (hsome | ⟨x, hx, hxc⟩)
            · exact .inl (.inl hsome)
            · rcases List.mem_cons.mp hx with rfl | hx'
              · exact .inl (.inr hxc.2)
              · exact .inr ⟨x, hx', hxc⟩
      · obtain ⟨t', v', hpl, hv', ht'⟩ := ih t (some ch.text) hrest
        have hh' : ¬ ch.text.data.head? = some ':' := by
          rw [hh]
          simp [hc]
        refine ⟨t', v', ?_, ?_, ?_⟩
        · rw [propLoop_cons_of_nonsep ch rest t v c hh hc]
          exact hpl
        · rw [hv']
          simp only [lastNonSepText, if_neg hh']
          cases hl : lastNonSepText rest <;> simp
        · rw [ht']
          constructor
          · rintro (hsome | ⟨x, hx, hxc⟩)
            · exact .inl hsome
            · exact .inr ⟨x, List.mem_cons_of_mem _ hx, hxc⟩
          · rintro (hsome | ⟨x, hx, hxc⟩)
            · exact .inl hsome
            · rcases List.mem_cons.mp hx with rfl | hx'
              · exact absurd hxc.1 hh'
              · exact .inr ⟨x, hx', hxc⟩

theorem get_prop_type_eq_entry (c : TSNode) (nm : String) (ty : Value)
    (h : propLoop c.children none none = .ok (some ty, some nm)) :
    get_prop_type c = .ok (some (.obj [("name", .str nm), ("type", ty)])) := by
  unfold get_prop_type
  rw [h]
  rfl

theorem get_prop_type_eq_none (c : TSNode) (t' : Option Value)
    (v' : Option String) (h : propLoop c.children none none = .ok (t', v'))
    (hnone : t' = none ∨ v' = none) :
    get_prop_type c = .ok none := by
  unfold get_prop_type
  rw [h]
  rcases hnone with rfl | rfl
  · cases v' <;> rfl
  · cases t' <;> rfl

theorem get_prop_type_ok (c : TSNode) (h : ∀ ch ∈ c.children, ch.text ≠ "") :
    ∃ r, get_prop_type c = .ok r := by
  obtain ⟨t', v', hpl, -, -⟩ := propLoop_spec c.children none none h
  unfold get_prop_type
  rw [hpl]
  cases v' <;> cases t' <;> exact ⟨_, rfl⟩

/-!
The claims.
-/

/-- C1: for every source tree with zero record declarations the merger
fails (the `schemas[0]` panic, modelled as `none`) rather than returning a
default or empty merged schema; in particular `merger` on the empty entry
list is an error. -/
theorem claim_C1_merger_fails_on_empty :
    merger [] = none ∧
    ∀ (root : TSNode) (l : List Value),
      (∀ n ∈ root.children, n.kind ≠ "interface_declaration") →
      get_schema root = Except.ok l → merger l = none := by
  refine ⟨rfl, ?_⟩
  intro root l h hs
  unfold get_schema at hs
  rw [topLoop_of_no_iface root.children [] h] at hs
  injection hs with e
  rw [← e]
  rfl

theorem claim_C1_witness : merger [] = none :=
  claim_C1_merger_fails_on_empty.2 ⟨"program", "", []⟩ [] (by simp) rfl

/-- C2 counterexample: a field node with two children whose texts do not
begin with `:` (texts `"a"` then `"b"`).  The claim predicts the first
(`"a"`) supplies the property name; the code returns `"b"` (the last),
so the claim is false at this input. -/
theorem claim_C2_counterexample :
    get_prop_type ⟨"property_signature", "a b: T",
      [⟨"property_identifier", "a", []⟩,
       ⟨"property_identifier", "b", []⟩,
       ⟨"type_ann", ": T",
        [⟨":", ":", []⟩, ⟨"type_identifier", "T", []⟩]⟩]⟩ =
      Except.ok (some (.obj [("name", .str "b"), ("type", .str "T")])) ∧
    Value.str "b" ≠ Value.str "a" := by
  constructor
  · rfl
  · decide

/-- C2 (amended): when `get_prop_type` returns a field entry, the property
name is the text of the LAST child whose text does not begin with `:`
(the loop overwrites `ppvalue` on every such child), not the first. -/
theorem claim_C2_last_nonseparator_wins (c : TSNode)
    (h : ∀ ch ∈ c.children, ch.text ≠ "") (v : Value)
    (hv : get_prop_type c = Except.ok (some v)) :
    ∃ nm, lastNonSepText c.children = some nm ∧
      v.getKey "name" = .str nm := by
  obtain ⟨t', v', hpl, hv', ht'⟩ := propLoop_spec c.children none none h
  cases htt : t' with
  | none =>
    rw [get_prop_type_eq_none c t' v' hpl (.inl htt)] at hv
    exact absurd hv (by simp)
  | some ty =>
    cases hvv : v' with
    | none =>
      rw [get_prop_type_eq_none c t' v' hpl (.inr hvv)] at hv
      exact absurd hv (by simp)
    | some nm =>
      subst htt
      subst hvv
      rw [get_prop_type_eq_entry c nm ty hpl] at hv
      have hveq : Value.obj [("name", .str nm), ("type", ty)] = v := by
        injection hv with e
        injection e
      subst hveq
      refine ⟨nm, ?_, rfl⟩
      cases hl : lastNonSepText c.children with
      | none =>
        rw [hl] at hv'
        exact absurd hv' (by simp)
      | some s =>
        rw [hl] at hv'
        injection hv' with e
        rw [e]

theorem claim_C2_witness :
    ∃ nm, lastNonSepText
      [⟨"property_identifier", "a", []⟩,
       ⟨"property_identifier", "b", []⟩,
       ⟨"type_ann", ": T",
        [⟨":", ":", []⟩, ⟨"type_identifier", "T", []⟩]⟩] = some nm ∧
      (Value.obj [("name", .str "b"), ("type", .str "T")]).getKey "name" =
        .str nm :=
  claim_C2_last_nonseparator_wins
    ⟨"property_signature", "a b: T",
      [⟨"property_identifier", "a", []⟩,
       ⟨"property_identifier", "b", []⟩,
       ⟨"type_ann", ": T",
        [⟨":", ":", []⟩, ⟨"type_identifier", "T", []⟩]⟩]⟩
    (by decide) (.obj [("name", .str "b"), ("type", .str "T")]) (by decide)

/-- C4: a root field whose `"type"` is one of the five base primitive
strings is never replaced by the merger, even when an entry of that name
exists: the base membership test runs before the reference lookup. -/
theorem claim_C4_base_primitives_never_replaced
    (l : List Value) (m root0 f : Value) (fs : List Value) (i : Nat)
    (p : String)
    (hm : merger l = some m) (hh : l.head? = some root0)
    (hf : root0.getKey "fields" = .arr fs) (hfi : fs[i]? = some f)
    (hp : p ∈ base_types) (ht : f.getKey "type" = .str p) :
    ∃ mfs, m.getKey "fields" = .arr mfs ∧ mfs[i]? = some f := by
  obtain ⟨hfields, -⟩ := merger_root_shape l m root0 fs hm hh hf
  refine ⟨fs.map (mergeField l), hfields, ?_⟩
  rw [List.getElem?_map, hfi, Option.map_some']
  rw [mergeField_of_base l f p ht hp]

theorem claim_C4_witness :
    ∃ mfs,
      (Value.obj [("type", .str "Record"), ("name", .str "A"),
        ("fields", .arr [.obj [("name", .str "x"),
          ("type", .str "string")]])]).getKey "fields" = .arr mfs ∧
      mfs[0]? = some (.obj [("name", .str "x"), ("type", .str "string")]) :=
  claim_C4_base_primitives_never_replaced
    [.obj [("type", .str "Record"), ("name", .str "A"),
      ("fields", .arr [.obj [("name", .str "x"), ("type", .str "string")]])],
     .obj [("type", .str "Record"), ("name", .str "string"),
      ("fields", .arr [])]]
    (.obj [("type", .str "Record"), ("name", .str "A"),
      ("fields", .arr [.obj [("name", .str "x"), ("type", .str "string")]])])
    (.obj [("type", .str "Record"), ("name", .str "A"),
      ("fields", .arr [.obj [("name", .str "x"), ("type", .str "string")]])])
    (.obj [("name", .str "x"), ("type", .str "string")])
    [.obj [("name", .str "x"), ("type", .str "string")]] 0 "string"
    (by decide) (by decide) (by decide) (by decide) (by decide) (by decide)

/-- C9: the classifier reads character 0 of each direct child's text
without a guard: when every child has non-empty text `get_prop_type`
never fails, and there is an input with an empty-text child on which it
fails (the out-of-bounds indexing, modelled as `Except.error`). -/
theorem claim_C9_empty_text_unguarded :
    (∀ c : TSNode, (∀ ch ∈ c.children, ch.text ≠ "") →
      get_prop_type c ≠ Except.error ()) ∧
    get_prop_type ⟨"property_signature", "",
      [⟨"property_identifier", "", []⟩]⟩ = Except.error () := by
  constructor
  · intro c h
    obtain ⟨r, hr⟩ := get_prop_type_ok c h
    rw [hr]
    simp
  · rfl

theorem claim_C9_witness :
    get_prop_type ⟨"property_signature", "a: T",
      [⟨"property_identifier", "a", []⟩,
       ⟨"type_ann", ": T",
        [⟨":", ":", []⟩, ⟨"type_identifier", "T", []⟩]⟩]⟩ ≠
      Except.error () :=
  claim_C9_empty_text_unguarded.1 _ (by decide)

/-- C10: every entry produced by `get_schema` carries the kind tag
`"type" = "Record"` and a `"fields"` array, whether or not a name was
found; hence on any non-empty extractor output the merger's accesses to
the root's `"fields"` never fail. -/
theorem claim_C10_extractor_invariant (root : TSNode) (l : List Value)
    (h : get_schema root = Except.ok l) :
    (∀ v ∈ l, v.getKey "type" = .str "Record" ∧
      ∃ fs, v.getKey "fields" = .arr fs) ∧
    (l ≠ [] → (merger l).isSome = true) := by
  have hshape := get_schema_shape root l h
  constructor
  · intro v hv
    obtain ⟨nm, fs, rfl⟩ := hshape v hv
    exact ⟨mkEntry_getKey_type nm fs, fs, mkEntry_getKey_fields nm fs⟩
  · intro hne
    cases l with
    | nil => exact absurd rfl hne
    | cons v rest =>
      obtain ⟨nm, fs, rfl⟩ := hshape v (by simp)
      rw [merger_eq_some (mkEntry nm fs) rest fs (mkEntry_getKey_fields nm fs)]
      rfl

theorem claim_C10_witness :
    (∀ v ∈ [Value.obj [("type", .str "Record"), ("name", .str "A"),
        ("fields", .arr [])]],
      v.getKey "type" = .str "Record" ∧
      ∃ fs, v.getKey "fields" = Value.arr fs) ∧
    ([Value.obj [("type", .str "Record"), ("name", .str "A"),
        ("fields", .arr [])]] ≠ [] →
      (merger [Value.obj [("type", .str "Record"), ("name", .str "A"),
        ("fields", .arr [])]]).isSome = true) :=
  claim_C10_extractor_invariant
    ⟨"program", "",
      [⟨"interface_declaration", "interface A",
        [⟨"type_identifier", "A", []⟩, ⟨"object_type", "", []⟩]⟩]⟩
    [Value.obj [("type", .str "Record"), ("name", .str "A"),
      ("fields", .arr [])]]
    (by decide)

/-- C3: a top-level field of the root entry whose `"type"` is a union (a
JSON array of type-name strings) is left unchanged by the merger — it is
never replaced by a nested entry, even if a union member equals another
extracted entry's name, because an array never compares equal to any
entry's `"name"`. -/
theorem claim_C3_union_fields_never_substituted
    (root : TSNode) (l : List Value) (m root0 f : Value)
    (fs xs : List Value) (i : Nat)
    (hext : get_schema root = Except.ok l)
    (hm : merger l = some m)
    (hh : l.head? = some root0)
    (hf : root0.getKey "fields" = .arr fs)
    (hfi : fs[i]? = some f)
    (ht : f.getKey "type" = .arr xs) :
    ∃ mfs, m.getKey "fields" = .arr mfs ∧ mfs[i]? = some f := by
  obtain ⟨hfields, -⟩ := merger_root_shape l m root0 fs hm hh hf
  refine ⟨fs.map (mergeField l), hfields, ?_⟩
  rw [List.getElem?_map, hfi, Option.map_some']
  rw [mergeField_of_arrtype l f xs ht (get_schema_name_shape root l hext)]

theorem claim_C3_witness :
    ∃ mfs,
      (Value.obj [("type", .str "Record"), ("name", .str "A"),
        ("fields", .arr [.obj [("name", .str "x"),
          ("type", .arr [.str "B", .str "C"])]])]).getKey "fields" =
        .arr mfs ∧
      mfs[0]? = some (.obj [("name", .str "x"),
        ("type", .arr [.str "B", .str "C"])]) :=
  claim_C3_union_fields_never_substituted
    ⟨"program", "",
      [⟨"interface_declaration", "",
        [⟨"type_identifier", "A", []⟩,
         ⟨"object_type", "",
          [⟨"property_signature", "x: B | C",
            [⟨"property_identifier", "x", []⟩,
             ⟨"type_ann", ": B | C",
              [⟨":", ":", []⟩, ⟨"union_type", "B | C", []⟩]⟩]⟩]⟩]⟩]⟩
    [.obj [("type", .str "Record"), ("name", .str "A"),
      ("fields", .arr [.obj [("name", .str "x"),
        ("type", .arr [.str "B", .str "C"])]])]]
    (.obj [("type", .str "Record"), ("name", .str "A"),
      ("fields", .arr [.obj [("name", .str "x"),
        ("type", .arr [.str "B", .str "C"])]])])
    (.obj [("type", .str "Record"), ("name", .str "A"),
      ("fields", .arr [.obj [("name", .str "x"),
        ("type", .arr [.str "B", .str "C"])]])])
    (.obj [("name", .str "x"), ("type", .arr [.str "B", .str "C"])])
    [.obj [("name", .str "x"), ("type", .arr [.str "B", .str "C"])]]
    [.str "B", .str "C"] 0
    (by decide) (by decide) (by decide) (by decide) (by decide) (by decide)

/-- C5: a field whose type-expression text contains `|` parses to a union:
the ordered list obtained by splitting the text on `|` and trimming each
segment, order preserved and duplicates kept. -/
theorem claim_C5_union_split_trim (nm typed : String)
    (hnm : nm ≠ "") (hh : nm.data.head? ≠ some ':')
    (hbar : containsChar '|' typed.data = true) :
    get_prop_type ⟨"property_signature", nm ++ ": " ++ typed,
      [⟨"property_identifier", nm, []⟩,
       ⟨"type_ann", ": " ++ typed,
        [⟨":", ":", []⟩, ⟨"union_type", typed, []⟩]⟩]⟩ =
      Except.ok (some (.obj [("name", .str nm),
        ("type", .arr ((splitChar '|' typed.data).map
          (fun s => Value.str ⟨trimChars s⟩)))])) := by
  have htyped : typed ≠ ":" := by
    intro e
    rw [e] at hbar
    exact absurd hbar (by decide)
  obtain ⟨c, hc⟩ : ∃ c, nm.data.head? = some c := by
    cases hdd : nm.data with
    | nil => exact absurd hdd (text_data_ne_nil nm hnm)
    | cons a as => exact ⟨a, rfl⟩
  have hcne : c ≠ ':' := fun e => hh (by rw [hc, e])
  have hsep : ((": " ++ typed : String)).data.head? = some ':' := by
    rw [String.data_append]
    rfl
  have e3 : typeLoop [⟨":", ":", []⟩, ⟨"union_type", typed, []⟩] none =
      some (classifyType typed) := by
    simp [typeLoop, htyped]
  have e4 : classifyType typed =
      .arr ((splitChar '|' typed.data).map
        (fun s => Value.str ⟨trimChars s⟩)) := by
    simp [classifyType, hbar]
  apply get_prop_type_eq_entry
  show propLoop
      [⟨"property_identifier", nm, []⟩,
       ⟨"type_ann", ": " ++ typed,
        [⟨":", ":", []⟩, ⟨"union_type", typed, []⟩]⟩] none none = _
  rw [propLoop_cons_of_nonsep _ _ none none c hc hcne]
  rw [propLoop_cons_of_sep _ _ none _ hsep]
  show Except.ok
      (typeLoop [⟨":", ":", []⟩, ⟨"union_type", typed, []⟩] none, some nm) = _
  rw [e3, e4]

theorem claim_C5_witness :
    get_prop_type ⟨"property_signature", "x" ++ ": " ++ "A | B",
      [⟨"property_identifier", "x", []⟩,
       ⟨"type_ann", ": " ++ "A | B",
        [⟨":", ":", []⟩, ⟨"union_type", "A | B", []⟩]⟩]⟩ =
      Except.ok (some (.obj [("name", .str "x"),
        ("type", .arr [.str "A", .str "B"])])) :=
  (claim_C5_union_split_trim "x" "A | B" (by decide) (by decide)
    (by decide)).trans (by decide)

/-- C6: under the precondition that every direct child has non-empty text,
`get_prop_type` returns a field entry if and only if some child's text
does not begin with `:` (the name side) and some child's text begins with
`:` and has a child whose text differs from `":"` (the type side); in
every other case it returns `none`, never an error. -/
theorem claim_C6_entry_iff_name_and_type (c : TSNode)
    (h : ∀ ch ∈ c.children, ch.text ≠ "") :
    ∃ r, get_prop_type c = Except.ok r ∧
      (r.isSome = true ↔
        ((∃ ch ∈ c.children, ch.text.data.head? ≠ some ':') ∧
         (∃ ch ∈ c.children, ch.text.data.head? = some ':' ∧
           ∃ sub ∈ ch.children, sub.text ≠ ":"))) := by
  obtain ⟨t', v', hpl, hv', ht'⟩ := propLoop_spec c.children none none h
  cases htt : t' with
  | none =>
    refine ⟨none, get_prop_type_eq_none c t' v' hpl (.inl htt), ?_⟩
    refine iff_of_false (by simp) ?_
    rintro ⟨-, hB⟩
    have hts : t'.isSome = true := ht'.mpr (.inr hB)
    rw [htt] at hts
    exact absurd hts (by simp)
  | some ty =>
    cases hvv : v' with
    | none =>
      refine ⟨none, get_prop_type_eq_none c t' v' hpl (.inr hvv), ?_⟩
      refine iff_of_false (by simp) ?_
      rintro ⟨hA, -⟩
      have hsome := (lastNonSepText_isSome c.children).mpr hA
      obtain ⟨s, hs⟩ := Option.isSome_iff_exists.mp hsome
      rw [hvv, hs] at hv'
      exact absurd hv' (by simp)
    | some nm =>
      subst htt
      subst hvv
      refine ⟨some (.obj [("name", .str nm), ("type", ty)]),
        get_prop_type_eq_entry c nm ty hpl, ?_⟩
      refine iff_of_true rfl ⟨?_, ?_⟩
      · apply (lastNonSepText_isSome c.children).mp
        cases hl : lastNonSepText c.children with
        | none =>
          rw [hl] at hv'
          exact absurd hv' (by simp)
        | some s => simp
      · rcases ht'.mp rfl with hfalse | hB
        · exact absurd hfalse (by simp)
        · exact hB

theorem claim_C6_witness :
    ∃ r, get_prop_type ⟨"property_signature", "x: T",
      [⟨"property_identifier", "x", []⟩,
       ⟨"type_ann", ": T",
        [⟨":", ":", []⟩, ⟨"type_identifier", "T", []⟩]⟩]⟩ =
      Except.ok r ∧
      (r.isSome = true ↔
        ((∃ ch ∈ [⟨"property_identifier", "x", []⟩,
           (⟨"type_ann", ": T",
            [⟨":", ":", []⟩, ⟨"type_identifier", "T", []⟩]⟩ : TSNode)],
          ch.text.data.head? ≠ some ':') ∧
         (∃ ch ∈ [⟨"property_identifier", "x", []⟩,
           (⟨"type_ann", ": T",
            [⟨":", ":", []⟩, ⟨"type_identifier", "T", []⟩]⟩ : TSNode)],
          ch.text.data.head? = some ':' ∧
            ∃ sub ∈ ch.children, sub.text ≠ ":"))) :=
  claim_C6_entry_iff_name_and_type
    ⟨"property_signature", "x: T",
      [⟨"property_identifier", "x", []⟩,
       ⟨"type_ann", ": T",
        [⟨":", ":", []⟩, ⟨"type_identifier", "T", []⟩]⟩]⟩
    (by decide)

/-- C7: substitution is single-level — when a root field's type names an
extracted entry, the field is replaced by that entry verbatim (the found
entry itself, its own fields not further resolved, so a reference inside
it to a third record stays a bare string). -/
theorem claim_C7_single_level_substitution
    (l : List Value) (m root0 f t sub : Value)
    (fs : List Value) (i : Nat)
    (hm : merger l = some m) (hh : l.head? = some root0)
    (hf : root0.getKey "fields" = .arr fs) (hfi : fs[i]? = some f)
    (ht : f.getKey "type" = t)
    (hb : ∀ p ∈ base_types, t ≠ .str p)
    (hfind : l.find? (fun x => Value.beq (x.getKey "name") t) = some sub) :
    ∃ mfs, m.getKey "fields" = .arr mfs ∧ mfs[i]? = some sub := by
  obtain ⟨hfields, -⟩ := merger_root_shape l m root0 fs hm hh hf
  refine ⟨fs.map (mergeField l), hfields, ?_⟩
  rw [List.getElem?_map, hfi, Option.map_some']
  rw [mergeField_of_found l f t sub ht hb hfind]

theorem claim_C7_witness :
    ∃ mfs,
      (Value.obj [("type", .str "Record"), ("name", .str "Person"),
        ("fields", .arr [.obj [("name", .str "age"), ("type", .str "number")],
          .obj [("type", .str "Record"), ("name", .str "Location"),
            ("fields", .arr [.obj [("name", .str "city"),
                ("type", .str "string")],
              .obj [("name", .str "t3"),
                ("type", .str "Third")]])]])]).getKey "fields" = .arr mfs ∧
      mfs[1]? = some (.obj [("type", .str "Record"), ("name", .str "Location"),
        ("fields", .arr [.obj [("name", .str "city"), ("type", .str "string")],
          .obj [("name", .str "t3"), ("type", .str "Third")]])]) :=
  claim_C7_single_level_substitution
    [.obj [("type", .str "Record"), ("name", .str "Person"),
      ("fields", .arr [.obj [("name", .str "age"), ("type", .str "number")],
        .obj [("name", .str "location"), ("type", .str "Location")]])],
     .obj [("type", .str "Record"), ("name", .str "Location"),
      ("fields", .arr [.obj [("name", .str "city"), ("type", .str "string")],
        .obj [("name", .str "t3"), ("type", .str "Third")]])],
     .obj [("type", .str "Record"), ("name", .str "Third"),
      ("fields", .arr [])]]
    (.obj [("type", .str "Record"), ("name", .str "Person"),
      ("fields", .arr [.obj [("name", .str "age"), ("type", .str "number")],
        .obj [("type", .str "Record"), ("name", .str "Location"),
          ("fields", .arr [.obj [("name", .str "city"),
              ("type", .str "string")],
            .obj [("name", .str "t3"), ("type", .str "Third")]])]])])
    (.obj [("type", .str "Record"), ("name", .str "Person"),
      ("fields", .arr [.obj [("name", .str "age"), ("type", .str "number")],
        .obj [("name", .str "location"), ("type", .str "Location")]])])
    (.obj [("name", .str "location"), ("type", .str "Location")])
    (.str "Location")
    (.obj [("type", .str "Record"), ("name", .str "Location"),
      ("fields", .arr [.obj [("name", .str "city"), ("type", .str "string")],
        .obj [("name", .str "t3"), ("type", .str "Third")]])])
    [.obj [("name", .str "age"), ("type", .str "number")],
     .obj [("name", .str "location"), ("type", .str "Location")]] 1
    (by decide) (by decide) (by decide) (by decide) (by decide) (by decide)
    (by decide)

/-- C8: the merger preserves the root entry's name, field count and field
order (no new fields appended, only existing indices overwritten), and
passes through unchanged every root field whose primitive type string is
neither a base primitive nor any extracted entry's name. -/
theorem claim_C8_frame (l : List Value) (m root0 : Value) (fs : List Value)
    (hm : merger l = some m) (hh : l.head? = some root0)
    (hf : root0.getKey "fields" = .arr fs) :
    m.getKey "name" = root0.getKey "name" ∧
    ∃ mfs, m.getKey "fields" = .arr mfs ∧ mfs.length = fs.length ∧
      ∀ (i : Nat) (f : Value) (t : String), fs[i]? = some f →
        f.getKey "type" = .str t → t ∉ base_types →
        (∀ x ∈ l, x.getKey "name" ≠ .str t) → mfs[i]? = some f := by
  obtain ⟨hfields, hname⟩ := merger_root_shape l m root0 fs hm hh hf
  refine ⟨hname, fs.map (mergeField l), hfields, by simp, ?_⟩
  intro i f t hfi ht hb hn
  rw [List.getElem?_map, hfi, Option.map_some']
  rw [mergeField_of_notfound l f t ht hb hn]

theorem claim_C8_witness :
    (Value.obj [("type", .str "Record"), ("name", .str "A"),
      ("fields", .arr [.obj [("name", .str "x"),
        ("type", .str "Unknown")]])]).getKey "name" =
      (Value.obj [("type", .str "Record"), ("name", .str "A"),
        ("fields", .arr [.obj [("name", .str "x"),
          ("type", .str "Unknown")]])]).getKey "name" ∧
    ∃ mfs,
      (Value.obj [("type", .str "Record"), ("name", .str "A"),
        ("fields", .arr [.obj [("name", .str "x"),
          ("type", .str "Unknown")]])]).getKey "fields" = .arr mfs ∧
      mfs.length = [Value.obj [("name", .str "x"),
        ("type", .str "Unknown")]].length ∧
      ∀ (i : Nat) (f : Value) (t : String),
        [Value.obj [("name", .str "x"), ("type", .str "Unknown")]][i]? =
          some f →
        f.getKey "type" = .str t → t ∉ base_types →
        (∀ x ∈ [Value.obj [("type", .str "Record"), ("name", .str "A"),
            ("fields", .arr [.obj [("name", .str "x"),
              ("type", .str "Unknown")]])],
          Value.obj [("type", .str "Record"), ("name", .str "B"),
            ("fields", .arr [])]],
          x.getKey "name" ≠ .str t) → mfs[i]? = some f :=
  claim_C8_frame
    [.obj [("type", .str "Record"), ("name", .str "A"),
      ("fields", .arr [.obj [("name", .str "x"), ("type", .str "Unknown")]])],
     .obj [("type", .str "Record"), ("name", .str "B"), ("fields", .arr [])]]
    (.obj [("type", .str "Record"), ("name", .str "A"),
      ("fields", .arr [.obj [("name", .str "x"), ("type", .str "Unknown")]])])
    (.obj [("type", .str "Record"), ("name", .str "A"),
      ("fields", .arr [.obj [("name", .str "x"), ("type", .str "Unknown")]])])
    [.obj [("name", .str "x"), ("type", .str "Unknown")]]
    (by decide) (by decide) (by decide)
